import Mathlib

/-!
Shallow embedding of `Thunder/server/stream_routes.py` (FileToLink media
delivery gateway): the link codec (`parse_media_request` with its two URL
patterns), the range negotiator (`parse_range_header`), the session load
balancer (`select_optimal_client`), and the two request handlers
(`media_delivery`, `media_preview`) modelled as pure functions over an
environment describing the outcomes of the effectful steps.

Strings are modelled byte-for-byte at the ASCII level: Python's `\d` and the
hash charset are taken over ASCII (all inputs in the claims are ASCII), and
`urllib.parse.unquote` is modelled for ASCII percent-escapes.
-/

set_option autoImplicit false

/-- `SECURE_HASH_LENGTH = 6` from the source. -/
def SECURE_HASH_LENGTH : Nat := 6

/-- `MAX_CONCURRENT_PER_CLIENT = 8` from the source. -/
def MAX_CONCURRENT_PER_CLIENT : Int := 8

/-- Character class `[a-zA-Z0-9_-]` used by `PATTERN_HASH_FIRST` and
`VALID_HASH_REGEX`. -/
def isHashChar (c : Char) : Bool :=
  c.isAlpha || c.isDigit || c = '_' || c = '-'

/-- Numeric value of a string of decimal digits, as Python's `int`. -/
def digitsVal (l : List Char) : Nat :=
  l.foldl (fun a c => 10 * a + (c.toNat - 48)) 0

/-- Value of one hex digit, for percent-decoding. -/
def hexDigitVal (c : Char) : Option Nat :=
  if '0' ≤ c ∧ c ≤ '9' then some (c.toNat - 48)
  else if 'a' ≤ c ∧ c ≤ 'f' then some (c.toNat - 87)
  else if 'A' ≤ c ∧ c ≤ 'F' then some (c.toNat - 55)
  else none

/-- `urllib.parse.unquote` on a character list: a `%` followed by two hex
digits decodes to the corresponding character; an invalid escape leaves the
`%` literal and continues with the following character (ASCII fragment of
Python's behaviour; multi-byte UTF-8 escapes do not occur in any input
considered here). -/
def unquoteList : List Char → List Char
  | [] => []
  | '%' :: h1 :: h2 :: rest =>
    match hexDigitVal h1, hexDigitVal h2 with
    | some v1, some v2 => Char.ofNat (16 * v1 + v2) :: unquoteList rest
    | _, _ => '%' :: unquoteList (h1 :: h2 :: rest)
  | c :: rest => c :: unquoteList rest

/-- `urllib.parse.unquote` on a string. -/
def unquote (s : String) : String :=
  String.mk (unquoteList s.data)

/-- Python `str.strip('/')` on a character list: drop leading and trailing
`/` characters. -/
def stripSlashList (l : List Char) : List Char :=
  ((l.dropWhile (fun c => c = '/')).reverse.dropWhile (fun c => c = '/')).reverse

/-- Python `str.strip('/')`. -/
def stripSlash (s : String) : String :=
  String.mk (stripSlashList s.data)

/-- Python `str.strip()` (no argument): drop surrounding whitespace. -/
def pyStrip (s : String) : String :=
  String.mk
    (((s.data.dropWhile Char.isWhitespace).reverse.dropWhile Char.isWhitespace).reverse)

/-- `PATTERN_HASH_FIRST = ^([a-zA-Z0-9_-]{6})(\d+)(?:/.*)?$` via `.match`:
six hash-charset characters, then one or more digits (greedy), then either
the end of the string or a `/` followed by anything. Returns
`(group 1, group 2) = (hash, digits)` on success. -/
def matchHashFirst (s : String) : Option (String × String) :=
  let cs := s.data
  let h := cs.take SECURE_HASH_LENGTH
  let rest := cs.drop SECURE_HASH_LENGTH
  let d := rest.takeWhile Char.isDigit
  let t := rest.dropWhile Char.isDigit
  if h.length = SECURE_HASH_LENGTH ∧ h.all isHashChar ∧ d ≠ [] ∧
      (t = [] ∨ t.head? = some '/') then
    some (String.mk h, String.mk d)
  else none

/-- `PATTERN_ID_FIRST = ^(\d+)(?:/.*)?$` via `.match`: one or more digits,
then either the end of the string or a `/` followed by anything. Returns
group 1 (the digits) on success. -/
def matchIdFirst (s : String) : Option String :=
  let cs := s.data
  let d := cs.takeWhile Char.isDigit
  let t := cs.dropWhile Char.isDigit
  if d ≠ [] ∧ (t = [] ∨ t.head? = some '/') then some (String.mk d) else none

/-- `VALID_HASH_REGEX = ^[a-zA-Z0-9_-]+$` via `.match`: non-empty and all
characters in the hash charset. Defined in the source module but never
applied there (dead code). -/
def VALID_HASH_REGEX (s : String) : Bool :=
  !s.data.isEmpty && s.data.all isHashChar

/-- The exception types raised by the module
(`Thunder.server.exceptions.InvalidHash` / `FileNotFound`). -/
inductive ThunderError where
  | InvalidHash (msg : String)
  | FileNotFound (msg : String)
deriving DecidableEq, Repr

/-- `parse_media_request(path, query)`: percent-decode and strip `/` from the
path, try `PATTERN_HASH_FIRST` then `PATTERN_ID_FIRST`; the id-first shape
takes its hash from `query.get("hash", "").strip()`. Raises
`InvalidHash("Invalid URL")` when neither pattern matches. `queryHash` is
the value of the query mapping at key `hash`, when present. -/
def parse_media_request (path : String) (queryHash : Option String) :
    Except ThunderError (Nat × String) :=
  let clean_path := stripSlash (unquote path)
  match matchHashFirst clean_path with
  | some (h, d) => .ok (digitsVal d.data, h)
  | none =>
    match matchIdFirst clean_path with
    | some d => .ok (digitsVal d.data, pyStrip (queryHash.getD ""))
    | none => .error (.InvalidHash "Invalid URL")

/-- The `aiohttp` HTTP exception raised by `parse_range_header`
(`web.HTTPBadRequest`, status 400). -/
inductive RangeError where
  | badRequest
deriving DecidableEq, Repr

/-- `RANGE_REGEX = bytes=(?P<start>\d*)-(?P<end>\d*)` via `.match` (matches a
prefix of the header, anchors only at the start): literal `bytes=`, a
possibly-empty greedy run of digits, `-`, a possibly-empty greedy run of
digits; anything after that is ignored. Returns the two digit groups. -/
def matchRange (s : String) : Option (List Char × List Char) :=
  let cs := s.data
  if cs.take 6 = "bytes=".data then
    let rest := cs.drop 6
    let d1 := rest.takeWhile Char.isDigit
    match rest.dropWhile Char.isDigit with
    | '-' :: r2 => some (d1, r2.takeWhile Char.isDigit)
    | _ => none
  else none

/-- `parse_range_header(range_header, file_size)`: a falsy header (absent or
empty) yields the full range `(0, file_size - 1)`; otherwise the header must
match `RANGE_REGEX` or `HTTPBadRequest` is raised; an empty start group
defaults to 0, an empty end group defaults to `file_size - 1`, and the end is
clamped to `file_size - 1`. -/
def parse_range_header (range_header : Option String) (file_size : Int) :
    Except RangeError (Int × Int) :=
  match range_header with
  | none => .ok (0, file_size - 1)
  | some s =>
    if s = "" then .ok (0, file_size - 1)
    else
      match matchRange s with
      | none => .error .badRequest
      | some (d1, d2) =>
        let start : Int := (digitsVal d1 : Int)
        let endv : Int := if d2 = [] then file_size - 1 else (digitsVal d2 : Int)
        .ok (start, min endv (file_size - 1))

/-- First entry with minimal second component, as Python's `min` with a key
function over an iteration order (ties broken by first occurrence). -/
def minByLoadFirst (l : List (Nat × Int)) : Option (Nat × Int) :=
  l.foldl
    (fun acc p =>
      match acc with
      | none => some p
      | some q => if p.2 < q.2 then some p else some q)
    none

/-- `select_optimal_client()`: over the `work_loads` mapping (modelled as its
insertion-ordered entry list `(client_id, load)`), raise
`HTTPInternalServerError` (here `none`) when empty; otherwise prefer the
first minimal-load entry with load strictly below `MAX_CONCURRENT_PER_CLIENT`,
and fall back to the first globally minimal-load entry when no entry is below
the cap. -/
def select_optimal_client (work_loads : List (Nat × Int)) : Option Nat :=
  if work_loads = [] then none
  else
    let available := work_loads.filter (fun p => p.2 < MAX_CONCURRENT_PER_CLIENT)
    match minByLoadFirst available with
    | some p => some p.1
    | none => (minByLoadFirst work_loads).map Prod.fst

deriving instance DecidableEq for Except

/-- The object metadata dictionary returned by
`ByteStreamer.get_file_info` (the keys the handler reads; a missing
`file_size` reads as the default 0, a missing `unique_id` as the falsy ""). -/
structure FileInfo where
  unique_id : String
  file_size : Option Int
  mime_type : Option String
deriving DecidableEq, Repr

/-- Termination mode of the response-body generator: it runs to completion,
raises mid-stream, or is closed early by a client disconnect. In Python all
three run the generator's `finally` block. -/
inductive StreamEnd where
  | completed
  | failedMid
  | disconnected
deriving DecidableEq, Repr

/-- Events of one request's execution, in order: workload increment,
possibly-blocking await point (with the name of the awaited operation),
workload decrement. -/
inductive REvent where
  | inc (cid : Nat)
  | suspend (op : String)
  | dec (cid : Nat)
deriving DecidableEq, Repr

/-- What the client observes from `media_delivery` / `media_preview`:
`streamOk` is the 206 partial-content response (with its Content-Range data),
`notFound` a raised `web.HTTPNotFound` with its text body,
`internalServerError` a raised `web.HTTPInternalServerError`,
`unhandledError` a non-HTTP exception escaping the handler (which the aiohttp
framework then surfaces as a generic 500), `htmlOk` the preview page. -/
inductive Outcome where
  | streamOk (start endPos total : Int) (mime : String)
  | notFound (text : String)
  | methodNotAllowed
  | internalServerError (text : String)
  | unhandledError (e : ThunderError)
  | htmlOk (html : String)
deriving DecidableEq, Repr

/-- HTTP status code of each outcome (`unhandledError` is the framework's
500 for an exception no handler caught). -/
def Outcome.status : Outcome → Nat
  | .streamOk _ _ _ _ => 206
  | .notFound _ => 404
  | .methodNotAllowed => 405
  | .internalServerError _ => 500
  | .unhandledError _ => 500
  | .htmlOk _ => 200

/-- Environment of one `media_delivery` request: the request data plus the
outcome of each effectful step (connection state, whether `client.start()`
succeeds when invoked, and the result of `get_file_info` — an exception,
a falsy value, or a metadata dictionary). -/
structure DeliveryEnv where
  isHeadMethod : Bool
  path : String
  queryHash : Option String
  work_loads : List (Nat × Int)
  is_connected : Bool
  start_ok : Bool
  file_info : Except Unit (Option FileInfo)
  rangeHeader : Option String
deriving Repr

/-- Result of one request: the client-visible outcome, the session bound by
the `work_loads[client_id] += 1` line (when reached), and the ordered event
trace. -/
structure DeliveryResult where
  outcome : Outcome
  bound : Option Nat
  trace : List REvent
deriving Repr

/-- Events produced by `stream_generator` for a bound session: one chunk-fetch
await region, then the `finally` clause's decrement — which runs whether the
generator completes, raises mid-stream, or is closed on client disconnect. -/
def stream_generator_events (client_id : Nat) : StreamEnd → List REvent
  | .completed => [.suspend "stream_file", .dec client_id]
  | .failedMid => [.suspend "stream_file", .dec client_id]
  | .disconnected => [.suspend "stream_file", .dec client_id]

/-- `media_delivery(request)`: reject HEAD; decode the link (outside the
`try`, so an `InvalidHash` there escapes the handler); select a session and
increment its workload; then, inside the `try`, reconnect if needed, fetch
metadata, check `unique_id` truthiness, compare `unique_id[:6]` with the
secret hash, check `file_size > 0`, negotiate the range, and answer 206 with
a generator body whose `finally` decrements the workload. Every exception
inside the `try` (including the `HTTPBadRequest` from range parsing) is
caught by the blanket `except Exception`, which decrements the workload and
raises `HTTPNotFound("Link expired or invalid")`. -/
def media_delivery (env : DeliveryEnv) (se : StreamEnd) : DeliveryResult :=
  if env.isHeadMethod then ⟨.methodNotAllowed, none, []⟩ else
  match parse_media_request env.path env.queryHash with
  | .error e => ⟨.unhandledError e, none, []⟩
  | .ok (_message_id, secure_hash) =>
    match select_optimal_client env.work_loads with
    | none => ⟨.internalServerError "No clients available", none, []⟩
    | some client_id =>
      -- work_loads[client_id] += 1, then the try block; `caught tr` is the
      -- single `except Exception` path: decrement and HTTPNotFound.
      let caught : List REvent → DeliveryResult := fun tr =>
        ⟨.notFound "Link expired or invalid", some client_id,
          .inc client_id :: tr ++ [.dec client_id]⟩
      let connectTrace : List REvent :=
        if env.is_connected then [] else [.suspend "client.start"]
      if ¬env.is_connected ∧ ¬env.start_ok then caught connectTrace
      else
        match env.file_info with
        | .error _ => caught (connectTrace ++ [.suspend "get_file_info"])
        | .ok none => caught (connectTrace ++ [.suspend "get_file_info"])
        | .ok (some fi) =>
          if fi.unique_id = "" then
            caught (connectTrace ++ [.suspend "get_file_info"])
          else if fi.unique_id.take SECURE_HASH_LENGTH ≠ secure_hash then
            caught (connectTrace ++ [.suspend "get_file_info"])
          else
            let file_size := fi.file_size.getD 0
            if file_size ≤ 0 then
              caught (connectTrace ++ [.suspend "get_file_info"])
            else
              match parse_range_header env.rangeHeader file_size with
              | .error _ => caught (connectTrace ++ [.suspend "get_file_info"])
              | .ok (start, endPos) =>
                ⟨.streamOk start endPos file_size
                    (fi.mime_type.getD "application/octet-stream"),
                  some client_id,
                  .inc client_id :: connectTrace ++ [.suspend "get_file_info"]
                    ++ stream_generator_events client_id se⟩

/-- `media_preview(request)` (the `/watch/{path}` handler): decode the link —
with no surrounding `try`, so an `InvalidHash` escapes the handler — then
delegate to the external `render_page` (modelled by its produced `html`) and
answer 200. -/
def media_preview (path : String) (queryHash : Option String) (html : String) :
    Outcome :=
  match parse_media_request path queryHash with
  | .error e => .unhandledError e
  | .ok _ => .htmlOk html

/-- Is the event a workload increment? -/
def isIncEvent : REvent → Bool
  | .inc _ => true
  | _ => false

/-- Is the event a workload decrement? -/
def isDecEvent : REvent → Bool
  | .dec _ => true
  | _ => false

/-- A delivery request with a valid hash-first link, present metadata with a
matching hash prefix and positive size, but a Range header that does not match
the grammar. -/
def envMalformedRange : DeliveryEnv :=
  ⟨false, "abcdef42", none, [(0, 0)], true, true,
    .ok (some ⟨"abcdefXYZ", some 1000, some "video/mp4"⟩), some "bytes=abc-def"⟩

/-- A delivery request whose path matches neither link pattern. -/
def envBadLink : DeliveryEnv :=
  ⟨false, "abc", none, [(0, 0)], true, true, .ok none, none⟩

/-- A delivery request with a valid link whose metadata fetch returns a falsy
value (object absent). -/
def envBound : DeliveryEnv :=
  ⟨false, "abcdef42", none, [(0, 2)], true, true, .ok none, none⟩

/-- A delivery request with a valid link whose metadata is present but whose
`unique_id` prefix differs from the link's secret hash. -/
def envMismatch : DeliveryEnv :=
  ⟨false, "abcdef42", none, [(0, 0)], true, true,
    .ok (some ⟨"zzzzzzid", some 1000, none⟩), none⟩

/-- A delivery request with a valid link for an absent object. -/
def envAbsent : DeliveryEnv :=
  ⟨false, "abcdef42", none, [(0, 0)], true, true, .ok none, none⟩

/- ------------------------------------------------------------------ -/
/- Helper lemmas on lists and the percent-decoder.                    -/
/- ------------------------------------------------------------------ -/

theorem takeWhile_append_of_all {α} (p : α → Bool) (l r : List α)
    (h : ∀ c ∈ l, p c = true) :
    (l ++ r).takeWhile p = l ++ r.takeWhile p := by
  induction l with
  | nil => simp
  | cons a t ih =>
    simp [List.takeWhile_cons, h a (by simp), ih fun c hc => h c (by simp [hc])]

theorem dropWhile_append_of_all {α} (p : α → Bool) (l r : List α)
    (h : ∀ c ∈ l, p c = true) :
    (l ++ r).dropWhile p = r.dropWhile p := by
  induction l with
  | nil => simp
  | cons a t ih =>
    simp only [List.cons_append, List.dropWhile_cons, h a (by simp)]
    exact ih fun c hc => h c (by simp [hc])

theorem takeWhile_eq_nil_of_head {α} (p : α → Bool) (l : List α)
    (h : ∀ c, l.head? = some c → p c = false) :
    l.takeWhile p = [] := by
  cases l with
  | nil => rfl
  | cons a t => simp [List.takeWhile_cons, h a rfl]

theorem dropWhile_eq_self_of_head {α} (p : α → Bool) (l : List α)
    (h : ∀ c, l.head? = some c → p c = false) :
    l.dropWhile p = l := by
  cases l with
  | nil => rfl
  | cons a t => simp [List.dropWhile_cons, h a rfl]

theorem dropWhile_eq_self_of_all {α} (p : α → Bool) (l : List α)
    (h : ∀ c ∈ l, p c = false) :
    l.dropWhile p = l := by
  cases l with
  | nil => rfl
  | cons a t => simp [List.dropWhile_cons, h a (by simp)]

theorem dropWhile_append_of_fix {α} (p : α → Bool) (x y : List α)
    (hy : y.dropWhile p = y) :
    (x ++ y).dropWhile p = x.dropWhile p ++ y := by
  induction x with
  | nil => simp [hy]
  | cons a t ih =>
    by_cases ha : p a = true
    · simp [List.dropWhile_cons, ha, ih]
    · simp at ha
      simp [List.dropWhile_cons, ha]

/-- Stripping a predicate from the end of a list that ends in `c` leaves
either nothing or a list that still starts where it started — specialised to
the form used for `str.strip`: the result of
`(l.reverse.dropWhile p).reverse` for `l = y ++ [c]` is empty or starts
with `c`. -/
theorem rstrip_end_head (p : Char → Bool) (y : List Char) (c : Char) :
    ((y ++ [c]).dropWhile p).reverse = [] ∨
      (((y ++ [c]).dropWhile p).reverse).head? = some c := by
  induction y with
  | nil =>
    by_cases hc : p c = true
    · simp [List.dropWhile_cons, hc]
    · simp at hc
      simp [List.dropWhile_cons, hc]
  | cons a t ih =>
    by_cases ha : p a = true
    · simpa [List.dropWhile_cons, ha] using ih
    · simp at ha
      simp [List.dropWhile_cons, ha, List.reverse_append]

theorem unquoteList_cons_ne (c : Char) (xs : List Char) (h : c ≠ '%') :
    unquoteList (c :: xs) = c :: unquoteList xs := by
  rw [unquoteList.eq_def]
  split
  · simp_all
  · simp_all
  · rename_i heq
    injection heq with e1 e2
    rw [e1, e2]

theorem unquoteList_append (l r : List Char) (h : ∀ c ∈ l, c ≠ '%') :
    unquoteList (l ++ r) = l ++ unquoteList r := by
  induction l with
  | nil => simp
  | cons a t ih =>
    rw [List.cons_append, unquoteList_cons_ne a _ (h a (by simp)),
      ih fun c hc => h c (by simp [hc])]
    rfl

theorem minByLoadFirst_go (l : List (Nat × Int)) :
    ∀ (a p : Nat × Int),
      l.foldl
        (fun acc q =>
          match acc with
          | none => some q
          | some w => if q.2 < w.2 then some q else some w)
        (some a) = some p →
      (p = a ∨ p ∈ l) ∧ p.2 ≤ a.2 ∧ ∀ q ∈ l, p.2 ≤ q.2 := by
  induction l with
  | nil => intro a p h; simp at h; simp [h]
  | cons b t ih =>
    intro a p h
    simp only [List.foldl_cons] at h
    by_cases hb : b.2 < a.2
    · rw [if_pos hb] at h
      obtain ⟨hmem, hle, hall⟩ := ih b p h
      refine ⟨?_, ?_, ?_⟩
      · rcases hmem with h1 | h1
        · exact Or.inr (by simp [h1])
        · exact Or.inr (by simp [h1])
      · omega
      · intro q hq
        rcases List.mem_cons.mp hq with h1 | h1
        · subst h1; omega
        · exact hall q h1
    · rw [if_neg hb] at h
      obtain ⟨hmem, hle, hall⟩ := ih a p h
      refine ⟨?_, ?_, ?_⟩
      · rcases hmem with h1 | h1
        · exact Or.inl h1
        · exact Or.inr (by simp [h1])
      · exact hle
      · intro q hq
        rcases List.mem_cons.mp hq with h1 | h1
        · subst h1; omega
        · exact hall q h1

theorem minByLoadFirst_none (l : List (Nat × Int)) :
    minByLoadFirst l = none ↔ l = [] := by
  cases l with
  | nil => simp [minByLoadFirst]
  | cons a t =>
    simp only [minByLoadFirst, List.foldl_cons]
    constructor
    · intro h
      exfalso
      have : ∀ (s : List (Nat × Int)) (x : Nat × Int),
          (s.foldl
            (fun acc q =>
              match acc with
              | none => some q
              | some w => if q.2 < w.2 then some q else some w)
            (some x)).isSome := by
        intro s
        induction s with
        | nil => intro x; rfl
        | cons c u ihs =>
          intro x
          simp only [List.foldl_cons]
          by_cases hc : c.2 < x.2
          · rw [if_pos hc]; exact ihs c
          · rw [if_neg hc]; exact ihs x
      have h2 := this t a
      rw [h] at h2
      cases h2
    · intro h; cases h

theorem minByLoadFirst_spec (l : List (Nat × Int)) (p : Nat × Int)
    (h : minByLoadFirst l = some p) :
    p ∈ l ∧ ∀ q ∈ l, p.2 ≤ q.2 := by
  cases l with
  | nil => cases h
  | cons a t =>
    simp only [minByLoadFirst, List.foldl_cons] at h
    obtain ⟨hmem, hle, hall⟩ := minByLoadFirst_go t a p h
    refine ⟨?_, ?_⟩
    · rcases hmem with h1 | h1
      · simp [h1]
      · simp [h1]
    · intro q hq
      rcases List.mem_cons.mp hq with h1 | h1
      · subst h1; exact hle
      · exact hall q h1

/- ------------------------------------------------------------------ -/
/- Claims.                                                            -/
/- ------------------------------------------------------------------ -/

/-- Claim C1: for every delivery request, the bound session's workload counter
is incremented exactly once when the session is selected (the increment is the
first event, before any possibly-blocking operation) and decremented exactly
once when the request ends (the decrement is the last event), on every exit
path — stream completion, mid-stream error, disconnect, or failure after
binding — and the number of decrements equals the number of increments on
every path, bound or not. -/
theorem c1_workload_accounting (env : DeliveryEnv) (se : StreamEnd) :
    ((media_delivery env se).trace.countP isIncEvent
      = (media_delivery env se).trace.countP isDecEvent) ∧
    (∀ c, (media_delivery env se).bound = some c →
      (media_delivery env se).trace.countP isIncEvent = 1 ∧
      (media_delivery env se).trace.head? = some (.inc c) ∧
      (media_delivery env se).trace.getLast? = some (.dec c)) ∧
    ((media_delivery env se).bound = none → (media_delivery env se).trace = []) := by
  unfold media_delivery
  dsimp only
  repeat' split
  all_goals
    cases se <;>
      simp_all [stream_generator_events, isIncEvent, isDecEvent,
        List.countP_cons, List.countP_append]

/-- Witness for C1 at a concrete bound request (valid link, absent object):
exactly one increment, first event the increment, last the decrement. -/
theorem c1_workload_accounting_w :
    (media_delivery envBound .completed).trace.countP isIncEvent = 1 ∧
    (media_delivery envBound .completed).trace.head? = some (.inc 0) ∧
    (media_delivery envBound .completed).trace.getLast? = some (.dec 0) :=
  (c1_workload_accounting envBound .completed).2.1 0 (by decide)

/-- Claim C2 (code bug): `parse_range_header` does raise the 400-class
`HTTPBadRequest` on a malformed Range header, but `media_delivery`'s blanket
`except Exception` catches it and replies with the generic 404
`HTTPNotFound("Link expired or invalid")` — so a request that reaches range
negotiation with a malformed Range header is answered 404, not 400. -/
theorem c2_malformed_range_maps_to_404 :
    parse_range_header (some "bytes=abc-def") 1000 = .error .badRequest ∧
    (media_delivery envMalformedRange .completed).outcome
      = .notFound "Link expired or invalid" ∧
    (media_delivery envMalformedRange .completed).outcome.status = 404 := by
  decide

/-- Claim C3 (code bug): `parse_media_request` is called before the `try`
block in `media_delivery` (and `media_preview` has no handler at all), so a
link-decoding failure raises `InvalidHash` out of the handler — the framework
surfaces a 500-class error, not the generic "not found" 404. -/
theorem c3_decode_failure_escapes_handler :
    parse_media_request "abc" none = .error (.InvalidHash "Invalid URL") ∧
    (media_delivery envBadLink .completed).outcome
      = .unhandledError (.InvalidHash "Invalid URL") ∧
    (media_delivery envBadLink .completed).outcome.status = 500 ∧
    media_preview "abc" none "page" = .unhandledError (.InvalidHash "Invalid URL") := by
  decide

/-- Claim C4 counterexample: the all-digit path "1234567" with `hash=abcd12`
does NOT decode to `(1234567, "abcd12")`: `PATTERN_HASH_FIRST` is tried first
and matches any 7-or-more-digit path, so decoding yields `(7, "123456")`. -/
theorem c4_idfirst_counterexample :
    parse_media_request "1234567" (some "abcd12") ≠ .ok (1234567, pyStrip "abcd12") ∧
    parse_media_request "1234567" (some "abcd12") = .ok (7, "123456") := by
  decide

/-- Claim C4 as amended: for every non-empty string `n` of at most 6 decimal
digits (as the path, optionally followed by `/…`) and every query mapping
carrying `hash=h`, link decoding yields `(int(n), h.strip())`. (For 7 or more
digits the hash-first pattern takes precedence — see the counterexample.) -/
theorem c4_idfirst_amended (n tail hq : String)
    (hn1 : n.data ≠ []) (hn2 : n.data.all Char.isDigit = true)
    (hn3 : n.data.length ≤ 6)
    (ht : tail = "" ∨ ∃ r, tail = "/" ++ r) :
    parse_media_request (n ++ tail) (some hq)
      = .ok (digitsVal n.data, pyStrip hq) := by
  have hdig : ∀ c ∈ n.data, Char.isDigit c = true := List.all_eq_true.mp hn2
  have hnp : ∀ c ∈ n.data, c ≠ '%' := by
    intro c hc he
    have hd := hdig c hc
    rw [he] at hd
    cases hd
  have hnslash : ∀ c ∈ n.data, c ≠ '/' := by
    intro c hc he
    have hd := hdig c hc
    rw [he] at hd
    cases hd
  have htail : tail.data = [] ∨ ∃ rd : List Char, tail.data = '/' :: rd := by
    rcases ht with h | ⟨r, h⟩
    · left; rw [h]
    · right; exact ⟨r.data, by rw [h]; simp [String.data_append]⟩
  have huq : unquoteList ((n ++ tail).data) = n.data ++ unquoteList tail.data := by
    rw [String.data_append, unquoteList_append _ _ hnp]
  set u := unquoteList tail.data with hu_def
  set t2 := (u.reverse.dropWhile (fun c => c = '/')).reverse with ht2_def
  have hclean : stripSlashList (n.data ++ u) = n.data ++ t2 := by
    unfold stripSlashList
    have h1 : (n.data ++ u).dropWhile (fun c => c = '/') = n.data ++ u := by
      cases hnd : n.data with
      | nil => exact absurd hnd hn1
      | cons a t =>
        have : a ≠ '/' := hnslash a (by rw [hnd]; simp)
        simp [List.dropWhile_cons, this]
    rw [h1, List.reverse_append]
    have hyrev : (n.data.reverse).dropWhile (fun c => c = '/') = n.data.reverse := by
      apply dropWhile_eq_self_of_all
      intro c hc
      simp [hnslash c (List.mem_reverse.mp hc)]
    rw [dropWhile_append_of_fix _ _ _ hyrev, List.reverse_append, List.reverse_reverse]
  have ht2 : t2 = [] ∨ t2.head? = some '/' := by
    rcases htail with h0 | ⟨rd, h0⟩
    · left
      rw [ht2_def, hu_def, h0]
      rfl
    · have hu2 : u = '/' :: unquoteList rd := by
        rw [hu_def, h0]
        exact unquoteList_cons_ne _ _ (by decide)
      rw [ht2_def, hu2, List.reverse_cons]
      exact rstrip_end_head _ _ '/'
  have ht2head : ∀ c, t2.head? = some c → Char.isDigit c = false := by
    intro c hc
    rcases ht2 with h0 | h0
    · rw [h0] at hc; cases hc
    · rw [h0] at hc
      injection hc with hc
      rw [← hc]
      rfl
  have hid : matchIdFirst (String.mk (n.data ++ t2)) = some (String.mk n.data) := by
    unfold matchIdFirst
    dsimp only
    have htw : (n.data ++ t2).takeWhile Char.isDigit = n.data := by
      rw [takeWhile_append_of_all _ _ _ hdig, takeWhile_eq_nil_of_head _ _ ht2head,
        List.append_nil]
    have hdw : (n.data ++ t2).dropWhile Char.isDigit = t2 := by
      rw [dropWhile_append_of_all _ _ _ hdig]
      apply dropWhile_eq_self_of_head
      exact fun c hc => by simp [ht2head c hc]
    rw [htw, hdw, if_pos ⟨hn1, ht2⟩]
  have hhash : matchHashFirst (String.mk (n.data ++ t2)) = none := by
    unfold matchHashFirst SECURE_HASH_LENGTH
    dsimp only
    by_cases hlen : n.data.length = 6
    · have htake : (n.data ++ t2).take 6 = n.data := by
        rw [← hlen]
        exact List.take_left n.data t2
      have hdrop : (n.data ++ t2).drop 6 = t2 := by
        rw [← hlen]
        exact List.drop_left n.data t2
      rw [htake, hdrop]
      apply if_neg
      intro hcond
      exact hcond.2.2.1 (takeWhile_eq_nil_of_head _ _ ht2head)
    · have hlt : n.data.length < 6 := lt_of_le_of_ne hn3 hlen
      rcases ht2 with h0 | hhead
      · rw [h0, List.append_nil]
        apply if_neg
        intro hcond
        have hl := hcond.1
        rw [List.length_take] at hl
        omega
      · apply if_neg
        intro hcond
        obtain ⟨w, hw⟩ : ∃ w, t2 = '/' :: w := by
          cases hts : t2 with
          | nil => rw [hts] at hhead; cases hhead
          | cons a w =>
            rw [hts] at hhead
            injection hhead with h2
            exact ⟨w, by rw [h2]⟩
        have hmem : '/' ∈ (n.data ++ t2).take 6 := by
          rw [hw, List.take_append_eq_append_take]
          refine List.mem_append.mpr (Or.inr ?_)
          cases hk : 6 - n.data.length with
          | zero => omega
          | succ k' => simp
        have hbad := (List.all_eq_true.mp hcond.2.1) '/' hmem
        cases hbad
  have hcdata : stripSlash (unquote (n ++ tail)) = String.mk (n.data ++ t2) := by
    unfold stripSlash unquote
    have : (String.mk (unquoteList (n ++ tail).data)).data
        = unquoteList (n ++ tail).data := rfl
    rw [this, huq, hclean]
  unfold parse_media_request
  rw [hcdata]
  dsimp only
  rw [hhash, hid]
  rfl

/-- Witness for C4 as amended, at `n = "123"`, no path tail, `hash=" ab c "`:
decoding yields `(123, "ab c")`. -/
theorem c4_idfirst_amended_w :
    parse_media_request ("123" ++ "") (some " ab c ") = .ok (123, "ab c") := by
  have h := c4_idfirst_amended "123" "" " ab c "
    (by decide) (by decide) (by decide) (Or.inl rfl)
  rw [h]
  decide

/-- Claim C5 (code bug): no hash charset/emptiness validation is performed by
`parse_media_request`: an id-first request with an absent `hash` query
parameter decodes successfully to `(123, "")` instead of failing with
`InvalidLink`, even though the module's own (never applied) `VALID_HASH_REGEX`
rejects the empty hash. -/
theorem c5_hash_charset_check_absent :
    parse_media_request "123" none = .ok (123, "") ∧
    VALID_HASH_REGEX "" = false := by
  decide

/-- Claim C6 counterexample: the accepted header `bytes=500-100` with total
1000 yields `(500, 100)`, violating `start ≤ end`. -/
theorem c6_start_end_counterexample :
    parse_range_header (some "bytes=500-100") 1000 = .ok (500, 100) ∧
    ¬((500 : Int) ≤ 100) := by
  decide

/-- Claim C6 as amended: for every Range header value that range negotiation
accepts and every total size > 0, the returned pair satisfies `0 ≤ start`,
`0 ≤ end` and `end ≤ total - 1` (`start ≤ end` — and hence
`start ≤ total - 1` — is NOT guaranteed, see the counterexample). -/
theorem c6_range_bounds_amended (rh : Option String) (total s e : Int)
    (htotal : 0 < total) (h : parse_range_header rh total = .ok (s, e)) :
    0 ≤ s ∧ 0 ≤ e ∧ e ≤ total - 1 := by
  cases rh with
  | none =>
    simp only [parse_range_header, Except.ok.injEq, Prod.mk.injEq] at h
    omega
  | some str =>
    by_cases hs : str = ""
    · simp [parse_range_header, hs] at h
      omega
    · simp only [parse_range_header, if_neg hs] at h
      cases hm : matchRange str with
      | none => rw [hm] at h; cases h
      | some p =>
        obtain ⟨d1, d2⟩ := p
        rw [hm] at h
        simp only [Except.ok.injEq, Prod.mk.injEq] at h
        obtain ⟨rfl, rfl⟩ := h
        refine ⟨Int.natCast_nonneg _, ?_, ?_⟩
        · by_cases hd : d2 = [] <;> simp [hd] <;> omega
        · by_cases hd : d2 = [] <;> simp [hd]

/-- Witness for C6 as amended, at `bytes=100-199` with total 1000. -/
theorem c6_range_bounds_amended_w :
    (0 : Int) ≤ 100 ∧ (0 : Int) ≤ 199 ∧ (199 : Int) ≤ 1000 - 1 :=
  c6_range_bounds_amended (some "bytes=100-199") 1000 100 199
    (by decide) (by decide)

/-- Claim C7 counterexample: `bytes=-200` is NOT rejected as malformed — the
grammar's start group may be empty, so it is accepted as `(0, 200)` with
total 1000. -/
theorem c7_suffix_range_counterexample :
    parse_range_header (some "bytes=-200") 1000 ≠ .error .badRequest ∧
    parse_range_header (some "bytes=-200") 1000 = .ok (0, 200) := by
  decide

/-- Claim C7 as amended: with total 1000, no Range header maps to `(0, 999)`;
`bytes=100-199` to `(100, 199)`; `bytes=500-` to `(500, 999)`; `bytes=-200`
is accepted as `(0, 200)` (missing start defaults to 0 — the suffix-length
reading `(800, 999)` is never produced, but neither does it fail);
`bytes=abc-def` fails with `MalformedRange`. -/
theorem c7_range_examples_amended :
    parse_range_header none 1000 = .ok (0, 999) ∧
    parse_range_header (some "bytes=100-199") 1000 = .ok (100, 199) ∧
    parse_range_header (some "bytes=500-") 1000 = .ok (500, 999) ∧
    parse_range_header (some "bytes=-200") 1000 = .ok (0, 200) ∧
    parse_range_header (some "bytes=-200") 1000 ≠ .ok (800, 999) ∧
    parse_range_header (some "bytes=abc-def") 1000 = .error .badRequest := by
  decide

/-- Claim C8: session selection fails exactly on an empty session set; when
some session is strictly below the cap of `MAX_CONCURRENT_PER_CLIENT = 8` it
returns a below-cap session of minimal workload (first found on ties); when
every session is at or above the cap it returns a session of globally minimal
workload. In particular workloads `{1:3, 2:8, 3:8}` select 1, `{1:8, 2:9}`
select 1, and the tie `{1:5, 2:5}` selects the first-found 1. -/
theorem c8_session_selection :
    (∀ wl : List (Nat × Int), select_optimal_client wl = none ↔ wl = []) ∧
    (∀ (wl : List (Nat × Int)) (c : Nat), select_optimal_client wl = some c →
      (∃ q ∈ wl, q.2 < MAX_CONCURRENT_PER_CLIENT) →
      ∃ l, (c, l) ∈ wl ∧ l < MAX_CONCURRENT_PER_CLIENT ∧
        ∀ q ∈ wl, q.2 < MAX_CONCURRENT_PER_CLIENT → l ≤ q.2) ∧
    (∀ (wl : List (Nat × Int)) (c : Nat), select_optimal_client wl = some c →
      (∀ q ∈ wl, MAX_CONCURRENT_PER_CLIENT ≤ q.2) →
      ∃ l, (c, l) ∈ wl ∧ ∀ q ∈ wl, l ≤ q.2) ∧
    select_optimal_client [(1, 3), (2, 8), (3, 8)] = some 1 ∧
    select_optimal_client [(1, 8), (2, 9)] = some 1 ∧
    select_optimal_client [(1, 5), (2, 5)] = some 1 := by
  refine ⟨?_, ?_, ?_, by decide, by decide, by decide⟩
  · intro wl
    constructor
    · intro h
      by_contra hne
      unfold select_optimal_client at h
      rw [if_neg hne] at h
      dsimp only at h
      cases hm : minByLoadFirst (wl.filter fun p => p.2 < MAX_CONCURRENT_PER_CLIENT) with
      | some p => rw [hm] at h; cases h
      | none =>
        rw [hm] at h
        cases hg : minByLoadFirst wl with
        | some p => rw [hg] at h; cases h
        | none => exact hne ((minByLoadFirst_none wl).mp hg)
    · intro h
      subst h
      rfl
  · intro wl c hsel hex
    unfold select_optimal_client at hsel
    have hne : wl ≠ [] := by
      intro h; subst h; simp at hex
    rw [if_neg hne] at hsel
    dsimp only at hsel
    cases hm : minByLoadFirst (wl.filter fun p => p.2 < MAX_CONCURRENT_PER_CLIENT) with
    | none =>
      exfalso
      have hfil : wl.filter (fun p => p.2 < MAX_CONCURRENT_PER_CLIENT) = [] :=
        (minByLoadFirst_none _).mp hm
      obtain ⟨q, hq, hlt⟩ := hex
      have : q ∈ wl.filter (fun p => p.2 < MAX_CONCURRENT_PER_CLIENT) :=
        List.mem_filter.mpr ⟨hq, by simpa using hlt⟩
      rw [hfil] at this
      cases this
    | some p =>
      rw [hm] at hsel
      cases hsel
      obtain ⟨hmem, hall⟩ := minByLoadFirst_spec _ _ hm
      have hp := List.mem_filter.mp hmem
      refine ⟨p.2, by simpa using hp.1, by simpa using hp.2, ?_⟩
      intro q hq hlt
      exact hall q (List.mem_filter.mpr ⟨hq, by simpa using hlt⟩)
  · intro wl c hsel hall8
    unfold select_optimal_client at hsel
    by_cases hne : wl = []
    · subst hne; cases hsel
    rw [if_neg hne] at hsel
    dsimp only at hsel
    cases hm : minByLoadFirst (wl.filter fun p => p.2 < MAX_CONCURRENT_PER_CLIENT) with
    | some p =>
      exfalso
      obtain ⟨hmem, _⟩ := minByLoadFirst_spec _ _ hm
      have hp := List.mem_filter.mp hmem
      have := hall8 p hp.1
      have h2 : p.2 < MAX_CONCURRENT_PER_CLIENT := by simpa using hp.2
      omega
    | none =>
      rw [hm] at hsel
      cases hg : minByLoadFirst wl with
      | none =>
        exact absurd ((minByLoadFirst_none wl).mp hg) hne
      | some p =>
        rw [hg] at hsel
        simp only [Option.map_some] at hsel
        cases hsel
        obtain ⟨hmem, hallm⟩ := minByLoadFirst_spec _ _ hg
        exact ⟨p.2, by simpa using hmem, hallm⟩

/-- Witness for C8 at workloads `{1:3, 2:8, 3:8}`: the selected session 1 is
below cap with minimal below-cap workload. -/
theorem c8_session_selection_w :
    ∃ l, ((1 : Nat), l) ∈ [((1 : Nat), (3 : Int)), (2, 8), (3, 8)] ∧
      l < MAX_CONCURRENT_PER_CLIENT ∧
      ∀ q ∈ [((1 : Nat), (3 : Int)), (2, 8), (3, 8)],
        q.2 < MAX_CONCURRENT_PER_CLIENT → l ≤ q.2 :=
  c8_session_selection.2.1 [(1, 3), (2, 8), (3, 8)] 1 (by decide) (by decide)

/-- Claim C9: for every delivery request that reaches metadata verification,
a secret hash differing from the first 6 characters of the object's
`unique_id` produces exactly the same outcome as a request for an absent
object: 404 with the same generic text body. -/
theorem c9_mismatch_indistinguishable
    (env1 env2 : DeliveryEnv) (se1 se2 : StreamEnd)
    (m1 : Nat) (h1 : String) (c1 : Nat) (fi : FileInfo)
    (hh1 : env1.isHeadMethod = false)
    (hp1 : parse_media_request env1.path env1.queryHash = .ok (m1, h1))
    (hs1 : select_optimal_client env1.work_loads = some c1)
    (hc1 : env1.is_connected = true)
    (hf1 : env1.file_info = .ok (some fi))
    (hu : fi.unique_id ≠ "")
    (hmm : fi.unique_id.take SECURE_HASH_LENGTH ≠ h1)
    (m2 : Nat) (h2 : String) (c2 : Nat)
    (hh2 : env2.isHeadMethod = false)
    (hp2 : parse_media_request env2.path env2.queryHash = .ok (m2, h2))
    (hs2 : select_optimal_client env2.work_loads = some c2)
    (hc2 : env2.is_connected = true)
    (hf2 : env2.file_info = .ok none) :
    (media_delivery env1 se1).outcome = (media_delivery env2 se2).outcome ∧
    (media_delivery env1 se1).outcome = .notFound "Link expired or invalid" ∧
    (media_delivery env1 se1).outcome.status = 404 := by
  have o1 : (media_delivery env1 se1).outcome = .notFound "Link expired or invalid" := by
    unfold media_delivery
    simp [hh1, hp1, hs1, hc1, hf1, hu, hmm]
  have o2 : (media_delivery env2 se2).outcome = .notFound "Link expired or invalid" := by
    unfold media_delivery
    simp [hh2, hp2, hs2, hc2, hf2]
  exact ⟨o1.trans o2.symm, o1, by rw [o1]; rfl⟩

/-- Witness for C9: the concrete hash-mismatch request and the concrete
absent-object request get equal outcomes, 404 with the generic body. -/
theorem c9_mismatch_indistinguishable_w :
    (media_delivery envMismatch .completed).outcome
      = (media_delivery envAbsent .completed).outcome ∧
    (media_delivery envMismatch .completed).outcome
      = .notFound "Link expired or invalid" ∧
    (media_delivery envMismatch .completed).outcome.status = 404 :=
  c9_mismatch_indistinguishable envMismatch envAbsent .completed .completed
    42 "abcdef" 0 ⟨"zzzzzzid", some 1000, none⟩
    (by decide) (by decide) (by decide) (by decide) (by decide)
    (by decide) (by decide)
    42 "abcdef" 0
    (by decide) (by decide) (by decide) (by decide) (by decide)

/-- Claim C10: `RANGE_REGEX` is matched as a prefix (Python `re.match` with no
end anchor), so any header of the form `bytes=<digits>-<digits><trailing>`
(trailing part not starting with a digit) is accepted, the trailing characters
ignored; e.g. `bytes=100-199xyz` with total 1000 yields `(100, 199)`. -/
theorem c10_range_trailing (d1 d2 rest : String) (total : Int)
    (h1 : d1.data.all Char.isDigit = true)
    (h2 : d2.data ≠ [] ∧ d2.data.all Char.isDigit = true)
    (hr : ∀ c, rest.data.head? = some c → c.isDigit = false) :
    parse_range_header (some ("bytes=" ++ d1 ++ "-" ++ d2 ++ rest)) total
      = .ok ((digitsVal d1.data : Int),
          min ((digitsVal d2.data : Int)) (total - 1)) := by
  have hdata : ("bytes=" ++ d1 ++ "-" ++ d2 ++ rest).data
      = 'b' :: 'y' :: 't' :: 'e' :: 's' :: '='
        :: (d1.data ++ '-' :: (d2.data ++ rest.data)) := by
    simp [String.data_append]
  have hne : ("bytes=" ++ d1 ++ "-" ++ d2 ++ rest) ≠ "" := by
    intro hcontra
    have h0 : ("bytes=" ++ d1 ++ "-" ++ d2 ++ rest).data = [] := by rw [hcontra]
    rw [hdata] at h0
    cases h0
  have hmatch : matchRange ("bytes=" ++ d1 ++ "-" ++ d2 ++ rest)
      = some (d1.data, d2.data) := by
    unfold matchRange
    rw [hdata]
    dsimp only
    have htk : ('b' :: 'y' :: 't' :: 'e' :: 's' :: '='
        :: (d1.data ++ '-' :: (d2.data ++ rest.data))).take 6 = "bytes=".data := rfl
    rw [htk, if_pos rfl]
    have hdrop : ('b' :: 'y' :: 't' :: 'e' :: 's' :: '='
        :: (d1.data ++ '-' :: (d2.data ++ rest.data))).drop 6
          = d1.data ++ '-' :: (d2.data ++ rest.data) := rfl
    rw [hdrop]
    have hall1 : ∀ c ∈ d1.data, Char.isDigit c = true := by
      intro c hc; exact (List.all_eq_true.mp h1) c hc
    rw [dropWhile_append_of_all _ _ _ hall1, takeWhile_append_of_all _ _ _ hall1]
    have : ('-' :: (d2.data ++ rest.data)).takeWhile Char.isDigit = [] := by
      simp [List.takeWhile_cons]
    rw [this]
    have : ('-' :: (d2.data ++ rest.data)).dropWhile Char.isDigit
        = '-' :: (d2.data ++ rest.data) := by
      simp [List.dropWhile_cons]
    rw [this]
    have hall2 : ∀ c ∈ d2.data, Char.isDigit c = true := by
      intro c hc; exact (List.all_eq_true.mp h2.2) c hc
    show some (d1.data ++ [], List.takeWhile Char.isDigit (d2.data ++ rest.data))
        = some (d1.data, d2.data)
    rw [takeWhile_append_of_all _ _ _ hall2, takeWhile_eq_nil_of_head _ _ hr]
    simp
  unfold parse_range_header
  dsimp only
  rw [if_neg hne, hmatch]
  simp [h2.1]

/-- Witness for C10 at `bytes=100-199xyz` with total 1000. -/
theorem c10_range_trailing_w :
    parse_range_header (some ("bytes=" ++ "100" ++ "-" ++ "199" ++ "xyz")) 1000
      = .ok (100, 199) := by
  have h := c10_range_trailing "100" "199" "xyz" 1000
    (by decide) (by decide) (by decide)
  rw [h]
  decide
